import Mathlib

/-!
Verification development for `owfmodules/avrisp/flash_dump.py`.

The module dumps the flash memory of an AVR device over ISP.  We embed the
`FlashDump.dump`, `FlashDump.process` and `FlashDump.run` methods as pure
state-passing functions.  Hardware interaction (SPI transmit/receive, the GPIO
reset line, logging, file saving) is recorded as a trace of `Event`s; the SPI
peripheral is abstracted as an `Oracle` supplying the byte returned by each
`receive` call and deciding whether a given `transmit` call raises a transport
error.  `struct.pack("<H", n)` is modelled by `packLE16`, which fails (returns
`none`, i.e. raises `struct.error`) for `n ≥ 2^16`, exactly as in Python.
-/

namespace AvrFlashDump

inductive LogLevel
  | info
  | success
  | error
  | result
deriving DecidableEq

inductive LogMsg
  | invalidMaxSize
  | enableMemAccess
  | startDump
  | dumpSuccess (n : Nat)
  | dumpSaved
  | invalidSize
  | exceptionCaught
deriving DecidableEq

/-- One observable action of the module: GPIO configuration, reset-line writes,
SPI configuration, SPI transmit/receive, a timed delay (the source never emits
one: it contains no sleep call), saving the dump file, log output, and the
invocation of the external device-detection module. -/
inductive Event
  | gpioDir
  | reset (v : Nat)
  | spiConfigure (baud : Nat)
  | transmit (data : List Nat)
  | receive (n : Nat) (data : List Nat)
  | delay (ms : Nat)
  | save (intelhex : Bool)
  | log (lvl : LogLevel) (msg : LogMsg)
  | detect
deriving DecidableEq

/-- The SPI environment: `resp k` is the byte answered by the `k`-th `receive`
call (taken mod 256), `transmitFails k` says whether the `k`-th `transmit`
call raises a transport error. -/
structure Oracle where
  resp : Nat → Nat
  transmitFails : Nat → Bool

/-- Execution state: the event trace so far, the `dump` bytearray, and the
number of transmit/receive calls already performed. -/
structure S where
  events : List Event := []
  image : List Nat := []
  tx : Nat := 0
  rx : Nat := 0
deriving DecidableEq

/-- `struct.pack("<H", n)`: two bytes, least significant first; raises
`struct.error` for `n ≥ 2^16`. -/
def packLE16 (n : Nat) : Option (List Nat) :=
  if n < 65536 then some [n % 256, n / 256] else none

def emit (s : S) (e : Event) : S := { s with events := s.events ++ [e] }

def emits (s : S) (l : List Event) : S := { s with events := s.events ++ l }

/-- `spi_interface.transmit(cmd)`: may raise (error carries the state so far). -/
def transmitOp (o : Oracle) (cmd : List Nat) (s : S) : Except S S :=
  if o.transmitFails s.tx then .error s
  else .ok { s with events := s.events ++ [.transmit cmd], tx := s.tx + 1 }

/-- `dump.extend(spi_interface.receive(1))`: receive one byte and append it to
the image. -/
def recvByte (o : Oracle) (s : S) : S :=
  let b := o.resp s.rx % 256
  { s with events := s.events ++ [.receive 1 [b]],
           image := s.image ++ [b], rx := s.rx + 1 }

/-- One loop iteration of `FlashDump.dump`: transmit the high-byte read
(opcode 0x28 = 40) with the address packed `"<H"`, receive one byte, then the
low-byte read (opcode 0x20 = 32), receive one byte. -/
def readWord (o : Oracle) (addr : Nat) (s : S) : Except S S :=
  match packLE16 addr with
  | none => .error s
  | some a =>
    match transmitOp o (40 :: a) s with
    | .error s1 => .error s1
    | .ok s1 =>
      let s2 := recvByte o s1
      match transmitOp o (32 :: a) s2 with
      | .error s3 => .error s3
      | .ok s3 => .ok (recvByte o s3)

/-- The `for current_addr in range(0, flash_size // 2)` loop. -/
def dumpIter (o : Oracle) : List Nat → S → Except S S
  | [], s => .ok s
  | a :: rest, s =>
    match readWord o a s with
    | .error s1 => .error s1
    | .ok s1 => dumpIter o rest s1

/-- `FlashDump.dump`: drive reset low, run the read loop, drive reset high,
log success, save the file (Intel-HEX or raw), log the result.  There is no
`try/finally`: an exception inside the loop propagates with the trace as is. -/
def dumpRun (o : Oracle) (ihx : Bool) (flashSize : Nat) (s : S) : Except S S :=
  match dumpIter o (List.range (flashSize / 2)) (emit s (.reset 0)) with
  | .error s1 => .error s1
  | .ok s1 =>
    .ok (emits s1 [.reset 1, .log .success (.dumpSuccess flashSize),
                   .save ihx, .log .result .dumpSaved])

/-- The option values consumed by `FlashDump.process`. -/
structure Options where
  detectTarget : Bool
  flashSizeOpt : Nat
  spiBaudrate : Nat
  intelhex : Bool

/-- The flash size `process` ends up using: the detection result when
`detect_target` is set and detection returned a device, otherwise the
configured option value (`device is None` leaves the option untouched). -/
def resolvedSize (opts : Options) (detection : Option Nat) : Nat :=
  if opts.detectTarget then
    match detection with
    | some d => d
    | none => opts.flashSizeOpt
  else opts.flashSizeOpt

/-- Events of `process` up to (and including) `spi_interface.configure`:
optional detection call, the flash-size maximum check (which only logs), GPIO
direction, reset high, SPI configure. -/
def procStart (opts : Options) (detection : Option Nat) : S :=
  let s : S := {}
  let s := if opts.detectTarget then emit s .detect else s
  let s := if 131072 < resolvedSize opts detection then
             emit s (.log .error .invalidMaxSize) else s
  emits s [.gpioDir, .reset 1, .spiConfigure opts.spiBaudrate]

/-- The "Avoid enabling memory access twice" block: only when `detect_target`
is false, log, drive reset low, transmit `AC 53 00 00`, then set the reset
line to 0 again (the source comment says "Drive reset high" but writes 0). -/
def procEnable (o : Oracle) (opts : Options) (s : S) : Except S S :=
  if opts.detectTarget then .ok s
  else
    match transmitOp o [172, 83, 0, 0]
            (emits s [.log .info .enableMemAccess, .reset 0]) with
    | .error s1 => .error s1
    | .ok s1 => .ok (emit s1 (.reset 0))

/-- `FlashDump.process`. -/
def process (o : Oracle) (opts : Options) (detection : Option Nat) :
    Except S S :=
  let fs := resolvedSize opts detection
  match procEnable o opts (procStart opts detection) with
  | .error s1 => .error s1
  | .ok s2 =>
    if (opts.detectTarget ∧ fs ≠ 0) ∨ (¬ opts.detectTarget ∧ fs ≠ 0) then
      dumpRun o opts.intelhex fs (emit s2 (.log .info .startDump))
    else if ¬ opts.detectTarget ∧ fs = 0 then
      .ok (emit s2 (.log .error .invalidSize))
    else .ok s2

/-- `FlashDump.run`: calls `process`; any exception is caught and logged as an
error, after which control returns to the caller. -/
def runMod (o : Oracle) (opts : Options) (detection : Option Nat) :
    List Event :=
  match process o opts detection with
  | .ok s => s.events
  | .error s => s.events ++ [.log .error .exceptionCaught]

/-- `FlashDump.dump` called on a fresh state (Intel-HEX output selected). -/
def dumpTop (o : Oracle) (n : Nat) : Except S S := dumpRun o true n {}

def eventsE : Except S S → List Event
  | .ok s => s.events
  | .error s => s.events

def imageE : Except S S → List Nat
  | .ok s => s.image
  | .error s => s.image

def okE : Except S S → Bool
  | .ok _ => true
  | .error _ => false

/-! ### Observations on traces -/

def transmitsOf (evts : List Event) : List (List Nat) :=
  evts.filterMap fun e =>
    match e with
    | .transmit c => some c
    | _ => none

/-- The last value written to the reset line, if any. -/
def lastReset (evts : List Event) : Option Nat :=
  (evts.filterMap fun e =>
    match e with
    | .reset v => some v
    | _ => none).getLast?

def isResetHigh : Event → Bool
  | .reset 1 => true
  | _ => false

def isErrLogEvt : Event → Bool
  | .log .error _ => true
  | _ => false

def isStartLog : Event → Bool
  | .log .info .startDump => true
  | _ => false

def isExtLoad : Event → Bool
  | .transmit (77 :: _) => true
  | _ => false

def isEnableCmd (e : Event) : Bool := decide (e = .transmit [172, 83, 0, 0])

def isDelay : Event → Bool
  | .delay _ => true
  | _ => false

def isSave : Event → Bool
  | .save _ => true
  | _ => false

def resetHighCount (evts : List Event) : Nat := evts.countP isResetHigh

def errLogCount (evts : List Event) : Nat := evts.countP isErrLogEvt

def startLogCount (evts : List Event) : Nat := evts.countP isStartLog

/-- Number of extended-address-load commands (opcode `4D` = 77) transmitted. -/
def extLoadCount (evts : List Event) : Nat := evts.countP isExtLoad

/-- Number of `AC 53 00 00` (programming enable) commands transmitted. -/
def enableCount (evts : List Event) : Nat := evts.countP isEnableCmd

def delayCount (evts : List Event) : Nat := evts.countP isDelay

def saveCount (evts : List Event) : Nat := evts.countP isSave

def isHw : Event → Bool
  | .gpioDir | .reset _ | .spiConfigure _ | .transmit _ | .receive _ _ => true
  | _ => false

def isErrLog : Event → Bool
  | .log .error _ => true
  | _ => false

/-- Whether some hardware interaction (GPIO, reset write, SPI configure,
transmit, receive) happens strictly before the first error-level log. -/
def hwBeforeErr (evts : List Event) : Bool :=
  decide (0 < (evts.takeWhile fun e => ! isErrLog e).countP isHw)

/-- Pair each transmitted command with the byte received right after it
(`pending` holds the command transmitted by the immediately preceding
event). -/
def cmdResponsesAux : Option (List Nat) → List Event → List (List Nat × Nat)
  | _, [] => []
  | _, .transmit c :: rest => cmdResponsesAux (some c) rest
  | some c, .receive _ (b :: []) :: rest => (c, b) :: cmdResponsesAux none rest
  | _, _ :: rest => cmdResponsesAux none rest

/-- Pair each transmitted command with the single byte received right after
it. -/
def cmdResponses (evts : List Event) : List (List Nat × Nat) :=
  cmdResponsesAux none evts

/-- Word addresses of the transmitted high-byte-read (0x28) commands, decoded
from their two little-endian address bytes. -/
def readAddrs (evts : List Event) : List Nat :=
  (transmitsOf evts).filterMap fun c =>
    match c with
    | op :: b0 :: b1 :: [] => if op = 40 then some (b0 + 256 * b1) else none
    | _ => none

def readLowCount (evts : List Event) : Nat :=
  (transmitsOf evts).countP fun c => decide (c.head? = some 32)

def readHighCount (evts : List Event) : Nat :=
  (transmitsOf evts).countP fun c => decide (c.head? = some 40)

/-! ### Concrete oracles and option records for witnesses -/

def mkOpts (dt : Bool) (fs baud : Nat) (ihx : Bool) : Options :=
  ⟨dt, fs, baud, ihx⟩

/-- All receives answer 0, no transmit ever fails. -/
def o0 : Oracle := ⟨fun _ => 0, fun _ => false⟩

/-- Receives answer 170, 187, 204, …; no transmit fails. -/
def o1 : Oracle := ⟨fun k => 170 + 17 * k, fun _ => false⟩

/-- The second transmit call (index 1) raises a transport error. -/
def oFail1 : Oracle := ⟨fun _ => 0, fun k => decide (k = 1)⟩

/-- No transmit call ever fails. -/
def noFail (o : Oracle) : Prop := ∀ k, o.transmitFails k = false

/-! ### Closed forms for the successful read loop -/

/-- The two address bytes actually sent: least significant byte first
(`struct.pack("<H", n)` for `n < 2^16`). -/
def packBytesLE (n : Nat) : List Nat := [n % 256, n / 256]

/-- The address encoding the specification prescribes: 16-bit big-endian,
most significant byte first. -/
def packBE16spec (n : Nat) : List Nat := [n / 256 % 256, n % 256]

/-- Trace of one loop iteration at word address `a`, with `rx` receives done
before it. -/
def wordTrace (o : Oracle) (rx a : Nat) : List Event :=
  [.transmit (40 :: packBytesLE a), .receive 1 [o.resp rx % 256],
   .transmit (32 :: packBytesLE a), .receive 1 [o.resp (rx + 1) % 256]]

/-- Trace of the whole read loop over the address list `l`. -/
def traceFrom (o : Oracle) : Nat → List Nat → List Event
  | _, [] => []
  | rx, a :: rest => wordTrace o rx a ++ traceFrom o (rx + 2) rest

/-- The `k` bytes appended to the image starting at receive index `rx`. -/
def byteSeq (o : Oracle) : Nat → Nat → List Nat
  | _, 0 => []
  | rx, k + 1 => o.resp rx % 256 :: byteSeq o (rx + 1) k

/-- The pairs (command, response byte) produced by the loop. -/
def pairTrace (o : Oracle) : Nat → List Nat → List (List Nat × Nat)
  | _, [] => []
  | rx, a :: rest =>
      (40 :: packBytesLE a, o.resp rx % 256) ::
      (32 :: packBytesLE a, o.resp (rx + 1) % 256) :: pairTrace o (rx + 2) rest


/-- The trailing events `dump` emits after a successful loop. -/
def dumpTail (ihx : Bool) (n : Nat) : List Event :=
  [.reset 1, .log .success (.dumpSuccess n), .save ihx, .log .result .dumpSaved]


/-- Events of `process` preceding the dump when `detect_target` is false and
the size is within the maximum: GPIO direction, reset high, SPI configure,
then the enable-memory-access block (whose final reset write is 0, not 1). -/
def procHead (baud : Nat) : List Event :=
  [.gpioDir, .reset 1, .spiConfigure baud, .log .info .enableMemAccess,
   .reset 0, .transmit [172, 83, 0, 0], .reset 0]


/-! ### Intel-HEX output encoder

Modelled from the spec: the Intel-HEX serialization is performed by the
external `intelhex` library (`IntelHex.puts` / `write_hex_file`), whose source
is not part of this repository.  Following §3/§4.5 of the spec, the image is
partitioned into records of at most 32 data bytes starting at address 0; each
record carries a 16-bit address, a record type, and a checksum equal to the
two's complement of the sum of all preceding record bytes; a standard
end-of-file record terminates the file.  A file is modelled as its list of
text lines (lists of characters). -/

def hexDigit (n : Nat) : Char :=
  if n < 10 then Char.ofNat (48 + n) else Char.ofNat (55 + n)

def byteHexChars (b : Nat) : List Char :=
  [hexDigit (b / 16 % 16), hexDigit (b % 16)]

def hexDigitVal (c : Char) : Option Nat :=
  if 48 ≤ c.toNat ∧ c.toNat ≤ 57 then some (c.toNat - 48)
  else if 65 ≤ c.toNat ∧ c.toNat ≤ 70 then some (c.toNat - 55)
  else none

def parseByteChars : List Char → Option (Nat × List Char)
  | c1 :: c2 :: rest =>
    match hexDigitVal c1, hexDigitVal c2 with
    | some h, some l => some (16 * h + l, rest)
    | _, _ => none
  | _ => none

def parseBytesChars : Nat → List Char → Option (List Nat × List Char)
  | 0, cs => some ([], cs)
  | k + 1, cs =>
    match parseByteChars cs with
    | none => none
    | some (b, cs1) =>
      match parseBytesChars k cs1 with
      | none => none
      | some (bs, cs2) => some (b :: bs, cs2)

/-- Two's complement (mod 256) of a byte sum. -/
def checksum (s : Nat) : Nat := (256 - s % 256) % 256

/-- One Intel-HEX data record line for `data` at 16-bit address `addr`. -/
def recordLine (addr : Nat) (data : List Nat) : List Char :=
  let cnt := data.length
  let hi := addr / 256 % 256
  let lo := addr % 256
  ':' :: (byteHexChars cnt ++ byteHexChars hi ++ byteHexChars lo ++
    byteHexChars 0 ++ data.flatMap byteHexChars ++
    byteHexChars (checksum (cnt + hi + lo + 0 + data.sum)))

/-- The end-of-file record `:00000001FF`. -/
def eofLine : List Char :=
  ':' :: (byteHexChars 0 ++ byteHexChars 0 ++ byteHexChars 0 ++
    byteHexChars 1 ++ byteHexChars 255)

/-- Data records of at most 32 bytes each, addresses counting up from
`addr`. -/
def encodeRecords (addr : Nat) (data : List Nat) : List (List Char) :=
  if h : data = [] then []
  else recordLine addr (data.take 32) :: encodeRecords (addr + 32) (data.drop 32)
termination_by data.length
decreasing_by
  have hpos : 0 < data.length := List.length_pos.2 h
  simp [List.length_drop]
  omega

/-- The Intel-HEX file (as its list of lines) for an image. -/
def encodeHex (data : List Nat) : List (List Char) :=
  encodeRecords 0 data ++ [eofLine]

inductive HexRecord
  | data (addr : Nat) (bytes : List Nat)
  | eof
deriving DecidableEq

/-- Parse one record line: leading colon, byte count, 16-bit address, record
type, data, checksum; the checksum of all record bytes must vanish mod 256. -/
def parseLine (cs : List Char) : Option HexRecord :=
  match cs with
  | c :: rest =>
    if c = ':' then
      match parseByteChars rest with
      | none => none
      | some (cnt, r1) =>
        match parseByteChars r1 with
        | none => none
        | some (hi, r2) =>
          match parseByteChars r2 with
          | none => none
          | some (lo, r3) =>
            match parseByteChars r3 with
            | none => none
            | some (typ, r4) =>
              match parseBytesChars cnt r4 with
              | none => none
              | some (bs, r5) =>
                match parseByteChars r5 with
                | none => none
                | some (ck, r6) =>
                  if r6 = [] ∧
                      (cnt + hi + lo + typ + bs.sum + ck) % 256 = 0 then
                    if typ = 0 then
                      if cnt = bs.length then
                        some (.data (256 * hi + lo) bs)
                      else none
                    else if typ = 1 ∧ cnt = 0 then some .eof
                    else none
                  else none
    else none
  | [] => none

/-- Decode a list of record lines, checking that each data record sits at the
running offset (mod 2^16) and that the file ends with the EOF record. -/
def decodeLines : Nat → List (List Char) → Option (List Nat)
  | _, [] => none
  | ofs, ln :: rest =>
    match parseLine ln with
    | some .eof => if rest = [] then some [] else none
    | some (.data a bs) =>
      if a = ofs % 65536 then
        match decodeLines (ofs + bs.length) rest with
        | none => none
        | some tail => some (bs ++ tail)
      else none
    | none => none

def decodeHex (file : List (List Char)) : Option (List Nat) :=
  decodeLines 0 file

/-- Executable byte-range check for an image. -/
def allBytes (l : List Nat) : Bool := l.all fun b => b < 256


theorem noFail_o0 : noFail o0 := fun _ => rfl

theorem noFail_o1 : noFail o1 := fun _ => rfl

theorem byteSeq_add_two (o : Oracle) (rx k : Nat) :
    byteSeq o rx (k + 2) =
      o.resp rx % 256 :: o.resp (rx + 1) % 256 :: byteSeq o (rx + 2) k := by
  rfl

theorem byteSeq_length (o : Oracle) : ∀ k rx, (byteSeq o rx k).length = k := by
  intro k
  induction k with
  | zero => intro rx; rfl
  | succ m ih => intro rx; simp [byteSeq, ih]

theorem byteSeq_get (o : Oracle) :
    ∀ k rx i, i < k → (byteSeq o rx k).get? i = some (o.resp (rx + i) % 256) := by
  intro k
  induction k with
  | zero => intro rx i h; omega
  | succ m ih =>
    intro rx i h
    cases i with
    | zero => simp [byteSeq]
    | succ j =>
      have hj : j < m := by omega
      have := ih (rx + 1) j hj
      simpa [byteSeq, Nat.add_assoc, Nat.add_comm 1 j] using this

/-- One successful loop iteration: both transmits go through and the word's
two bytes are appended. -/
theorem readWord_ok (o : Oracle) (a : Nat) (s : S) (ha : a < 65536)
    (h1 : o.transmitFails s.tx = false) (h2 : o.transmitFails (s.tx + 1) = false) :
    readWord o a s =
      .ok { events := s.events ++ wordTrace o s.rx a,
            image := s.image ++ [o.resp s.rx % 256, o.resp (s.rx + 1) % 256],
            tx := s.tx + 2, rx := s.rx + 2 } := by
  simp [readWord, packLE16, ha, transmitOp, recvByte, h1, h2, wordTrace,
    packBytesLE, List.append_assoc]

/-- Success run of the read loop: with no transmit failure and every address
below `2^16`, `dumpIter` succeeds and its trace, image and counters have the
given closed form. -/
theorem dumpIter_ok (o : Oracle) (hno : noFail o) :
    ∀ (l : List Nat) (s : S), (∀ a ∈ l, a < 65536) →
      dumpIter o l s =
        .ok { events := s.events ++ traceFrom o s.rx l,
              image := s.image ++ byteSeq o s.rx (2 * l.length),
              tx := s.tx + 2 * l.length, rx := s.rx + 2 * l.length } := by
  intro l
  induction l with
  | nil =>
    intro s _
    simp [dumpIter, traceFrom, byteSeq]
  | cons a rest ih =>
    intro s hmem
    have ha : a < 65536 := hmem a (by simp)
    have htx1 : o.transmitFails s.tx = false := hno s.tx
    have htx2 : o.transmitFails (s.tx + 1) = false := hno (s.tx + 1)
    have hrest : ∀ b ∈ rest, b < 65536 := fun b hb => hmem b (by simp [hb])
    simp only [dumpIter]
    rw [readWord_ok o a s ha htx1 htx2]
    simp only []
    rw [ih _ hrest]
    simp only [Except.ok.injEq, S.mk.injEq]
    refine ⟨?_, ?_, by simp only [List.length_cons]; omega,
      by simp only [List.length_cons]; omega⟩
    · simp [traceFrom, List.append_assoc]
    · simp [List.length_cons, Nat.mul_succ, byteSeq_add_two, List.append_assoc]

/-- Splitting the read loop over an appended address list. -/
theorem dumpIter_append (o : Oracle) (l1 l2 : List Nat) :
    ∀ s, dumpIter o (l1 ++ l2) s =
      match dumpIter o l1 s with
      | .error s1 => .error s1
      | .ok s1 => dumpIter o l2 s1 := by
  induction l1 with
  | nil => intro s; simp [dumpIter]
  | cons a t ih =>
    intro s
    simp only [List.cons_append, dumpIter]
    cases readWord o a s with
    | error s1 => rfl
    | ok s1 => exact ih s1

/-- If some address in the list is out of the 16-bit range, the read loop
raises (either there, or at an earlier transport failure). -/
theorem dumpIter_err (o : Oracle) :
    ∀ (l : List Nat) (s : S), (∃ a ∈ l, 65536 ≤ a) →
      okE (dumpIter o l s) = false := by
  intro l
  induction l with
  | nil => intro s h; simp at h
  | cons a t ih =>
    intro s hex
    by_cases h : 65536 ≤ a
    · have hpack : packLE16 a = none := by simp [packLE16]; omega
      simp [dumpIter, readWord, hpack, okE]
    · cases hr : readWord o a s with
      | error s1 => simp [dumpIter, hr, okE]
      | ok s1 =>
        obtain ⟨b, hb, hble⟩ := hex
        have hbt : b ∈ t := by
          rcases List.mem_cons.1 hb with h1 | h1
          · omega
          · exact h1
        simp only [dumpIter, hr]
        exact ih s1 ⟨b, hbt, hble⟩

/-! ### Which events the read loop can emit

The loop only ever emits `transmit` events whose opcode byte is 40 (0x28) or
32 (0x20), and `receive` events.  Hence for any event predicate that is false
on those shapes, the count over the loop trace is unchanged, on the success
path and on every error path alike. -/

theorem readWord_countP (o : Oracle) (p : Event → Bool)
    (h40 : ∀ bs, p (.transmit (40 :: bs)) = false)
    (h32 : ∀ bs, p (.transmit (32 :: bs)) = false)
    (hrecv : ∀ n bs, p (.receive n bs) = false)
    (a : Nat) (s : S) :
    (eventsE (readWord o a s)).countP p = s.events.countP p := by
  unfold readWord
  cases hpack : packLE16 a with
  | none => simp [eventsE]
  | some bs =>
    simp only []
    unfold transmitOp
    by_cases hf1 : o.transmitFails s.tx = true
    · simp [hf1, eventsE]
    · simp only [hf1, if_false, recvByte]
      by_cases hf2 : o.transmitFails (s.tx + 1) = true
      · simp [hf2, eventsE, List.countP_append, h40, hrecv]
      · simp [hf2, eventsE, List.countP_append, h40, h32, hrecv,
          List.countP_cons]

theorem dumpIter_countP (o : Oracle) (p : Event → Bool)
    (h40 : ∀ bs, p (.transmit (40 :: bs)) = false)
    (h32 : ∀ bs, p (.transmit (32 :: bs)) = false)
    (hrecv : ∀ n bs, p (.receive n bs) = false) :
    ∀ (l : List Nat) (s : S),
      (eventsE (dumpIter o l s)).countP p = s.events.countP p := by
  intro l
  induction l with
  | nil => intro s; simp [dumpIter, eventsE]
  | cons a t ih =>
    intro s
    have hw := readWord_countP o p h40 h32 hrecv a s
    cases hr : readWord o a s with
    | error s1 =>
      rw [hr] at hw
      simpa [dumpIter, hr, eventsE] using hw
    | ok s1 =>
      rw [hr] at hw
      simp only [dumpIter, hr]
      rw [ih s1]
      simpa [eventsE] using hw

theorem dumpRun_countP (o : Oracle) (p : Event → Bool)
    (h40 : ∀ bs, p (.transmit (40 :: bs)) = false)
    (h32 : ∀ bs, p (.transmit (32 :: bs)) = false)
    (hrecv : ∀ n bs, p (.receive n bs) = false)
    (hres : ∀ v, p (.reset v) = false)
    (ihx : Bool) (n : Nat)
    (hsucc : p (.log .success (.dumpSuccess n)) = false)
    (hsave : p (.save ihx) = false)
    (hresult : p (.log .result .dumpSaved) = false)
    (s : S) :
    (eventsE (dumpRun o ihx n s)).countP p = s.events.countP p := by
  unfold dumpRun
  have h := dumpIter_countP o p h40 h32 hrecv (List.range (n / 2))
    (emit s (.reset 0))
  cases hr : dumpIter o (List.range (n / 2)) (emit s (.reset 0)) with
  | error s1 =>
    rw [hr] at h
    simp only [eventsE] at h ⊢
    simp [h, emit, List.countP_append, hres]
  | ok s1 =>
    rw [hr] at h
    simp only [eventsE] at h ⊢
    simp [emits, List.countP_append, h, emit, hres, hsucc, hsave, hresult,
      List.countP_cons]

/-- Whether `dump` succeeds is decided by its read loop. -/
theorem okE_dumpRun (o : Oracle) (ihx : Bool) (n : Nat) (s : S) :
    okE (dumpRun o ihx n s) =
      okE (dumpIter o (List.range (n / 2)) (emit s (.reset 0))) := by
  unfold dumpRun
  cases dumpIter o (List.range (n / 2)) (emit s (.reset 0)) <;> rfl

/-- Event counting through a `dump` whose read loop raises: the trailing
reset-high/log/save events are never emitted. -/
theorem dumpRun_countP_err (o : Oracle) (p : Event → Bool)
    (h40 : ∀ bs, p (.transmit (40 :: bs)) = false)
    (h32 : ∀ bs, p (.transmit (32 :: bs)) = false)
    (hrecv : ∀ n bs, p (.receive n bs) = false)
    (hres : ∀ v, p (.reset v) = false)
    (ihx : Bool) (n : Nat) (s : S)
    (herr : okE (dumpIter o (List.range (n / 2)) (emit s (.reset 0))) = false) :
    (eventsE (dumpRun o ihx n s)).countP p = s.events.countP p := by
  unfold dumpRun
  have h := dumpIter_countP o p h40 h32 hrecv (List.range (n / 2))
    (emit s (.reset 0))
  cases hr : dumpIter o (List.range (n / 2)) (emit s (.reset 0)) with
  | error s1 =>
    rw [hr] at h
    simp only [eventsE] at h ⊢
    simp [h, emit, List.countP_append, hres]
  | ok s1 =>
    rw [hr] at herr
    simp [okE] at herr

/-! ### The loop trace in observation terms -/

theorem transmitsOf_append (l1 l2 : List Event) :
    transmitsOf (l1 ++ l2) = transmitsOf l1 ++ transmitsOf l2 := by
  simp [transmitsOf, List.filterMap_append]

theorem transmitsOf_traceFrom (o : Oracle) :
    ∀ (l : List Nat) (rx : Nat),
      transmitsOf (traceFrom o rx l) =
        l.flatMap fun a => [40 :: packBytesLE a, 32 :: packBytesLE a] := by
  intro l
  induction l with
  | nil => intro rx; simp [traceFrom, transmitsOf]
  | cons a t ih =>
    intro rx
    have h1 : traceFrom o rx (a :: t) =
        wordTrace o rx a ++ traceFrom o (rx + 2) t := rfl
    rw [h1, transmitsOf_append, ih]
    simp [wordTrace, transmitsOf]

theorem countP_traceFrom (o : Oracle) (p : Event → Bool)
    (h40 : ∀ bs, p (.transmit (40 :: bs)) = false)
    (h32 : ∀ bs, p (.transmit (32 :: bs)) = false)
    (hrecv : ∀ n bs, p (.receive n bs) = false) :
    ∀ (l : List Nat) (rx : Nat), (traceFrom o rx l).countP p = 0 := by
  intro l
  induction l with
  | nil => intro rx; simp [traceFrom]
  | cons a t ih =>
    intro rx
    simp [traceFrom, wordTrace, List.countP_append, List.countP_cons,
      h40, h32, hrecv, ih]

theorem cmdResponses_traceFrom (o : Oracle) :
    ∀ (l : List Nat) (rx : Nat) (rest : List Event),
      cmdResponses (traceFrom o rx l ++ rest) =
        pairTrace o rx l ++ cmdResponses rest := by
  intro l
  induction l with
  | nil => intro rx rest; simp [traceFrom, pairTrace]
  | cons a t ih =>
    intro rx rest
    have h1 : traceFrom o rx (a :: t) ++ rest =
        Event.transmit (40 :: packBytesLE a) ::
        Event.receive 1 [o.resp rx % 256] ::
        Event.transmit (32 :: packBytesLE a) ::
        Event.receive 1 [o.resp (rx + 1) % 256] ::
        (traceFrom o (rx + 2) t ++ rest) := by
      simp [traceFrom, wordTrace]
    rw [h1]
    have h2 : ∀ (c c2 : List Nat) (b b2 : Nat) (tl : List Event),
        cmdResponses (Event.transmit c :: Event.receive 1 [b] ::
          Event.transmit c2 :: Event.receive 1 [b2] :: tl) =
          (c, b) :: (c2, b2) :: cmdResponses tl := by
      intro c c2 b b2 tl
      rfl
    rw [h2, ih]
    have h3 : pairTrace o rx (a :: t) =
        (40 :: packBytesLE a, o.resp rx % 256) ::
        (32 :: packBytesLE a, o.resp (rx + 1) % 256) :: pairTrace o (rx + 2) t := rfl
    rw [h3]
    rfl

theorem readAddrs_traceFrom (o : Oracle) :
    ∀ (l : List Nat) (rx : Nat), (∀ a ∈ l, a < 65536) →
      readAddrs (traceFrom o rx l) = l := by
  intro l
  induction l with
  | nil => intro rx _; simp [traceFrom, readAddrs, transmitsOf]
  | cons a t ih =>
    intro rx hmem
    have ht : ∀ b ∈ t, b < 65536 := fun b hb => hmem b (by simp [hb])
    have h1 : traceFrom o rx (a :: t) =
        wordTrace o rx a ++ traceFrom o (rx + 2) t := rfl
    have hmod : a % 256 + 256 * (a / 256) = a := Nat.mod_add_div a 256
    simp only [readAddrs] at ih ⊢
    rw [h1, transmitsOf_append, List.filterMap_append, ih (rx + 2) ht]
    simp [wordTrace, transmitsOf, packBytesLE, hmod]

theorem readLowCount_traceFrom (o : Oracle) :
    ∀ (l : List Nat) (rx : Nat),
      readLowCount (traceFrom o rx l) = l.length := by
  intro l
  induction l with
  | nil => intro rx; simp [traceFrom, readLowCount, transmitsOf]
  | cons a t ih =>
    intro rx
    simp only [readLowCount, transmitsOf_traceFrom] at ih ⊢
    simp [List.countP_cons, ih rx, List.length_cons]

/-- Closed form of a successful `FlashDump.dump` call from state `s`. -/
theorem dumpRun_ok (o : Oracle) (hno : noFail o) (ihx : Bool) (n : Nat) (s : S)
    (hn : n ≤ 131073) :
    dumpRun o ihx n s =
      .ok { events := s.events ++ Event.reset 0 :: traceFrom o s.rx
              (List.range (n / 2)) ++ dumpTail ihx n,
            image := s.image ++ byteSeq o s.rx (2 * (n / 2)),
            tx := s.tx + 2 * (n / 2), rx := s.rx + 2 * (n / 2) } := by
  have hmem : ∀ a ∈ List.range (n / 2), a < 65536 := by
    intro a ha
    have := List.mem_range.1 ha
    omega
  unfold dumpRun
  rw [dumpIter_ok o hno (List.range (n / 2)) (emit s (.reset 0)) hmem]
  simp [emit, emits, dumpTail, List.append_assoc, List.length_range]

/-- Closed form of a successful `dump` on a fresh state. -/
theorem dumpTop_ok (o : Oracle) (hno : noFail o) (n : Nat) (hn : n ≤ 131073) :
    dumpTop o n =
      .ok { events := Event.reset 0 :: traceFrom o 0 (List.range (n / 2))
              ++ dumpTail true n,
            image := byteSeq o 0 (2 * (n / 2)),
            tx := 2 * (n / 2), rx := 2 * (n / 2) } := by
  unfold dumpTop
  rw [dumpRun_ok o hno true n {} hn]
  simp

theorem readHighCount_traceFrom (o : Oracle) :
    ∀ (l : List Nat) (rx : Nat),
      readHighCount (traceFrom o rx l) = l.length := by
  intro l
  induction l with
  | nil => intro rx; simp [traceFrom, readHighCount, transmitsOf]
  | cons a t ih =>
    intro rx
    simp only [readHighCount, transmitsOf_traceFrom] at ih ⊢
    simp [List.countP_cons, ih rx, List.length_cons]

/-! ### Closed forms for `process` -/

theorem procStart_noDetect (n baud : Nat) (ihx : Bool) (det : Option Nat)
    (hle : n ≤ 131072) :
    procStart ⟨false, n, baud, ihx⟩ det =
      { events := [.gpioDir, .reset 1, .spiConfigure baud] } := by
  have haux : ¬ 131072 < resolvedSize ⟨false, n, baud, ihx⟩ det := by
    simp [resolvedSize]
    omega
  simp [procStart, emit, emits, haux]

theorem procStart_detectNone (n baud : Nat) (ihx : Bool) (hle : n ≤ 131072) :
    procStart ⟨true, n, baud, ihx⟩ none =
      { events := [.detect, .gpioDir, .reset 1, .spiConfigure baud] } := by
  have haux : ¬ 131072 < resolvedSize ⟨true, n, baud, ihx⟩ none := by
    simp [resolvedSize]
    omega
  simp [procStart, emit, emits, haux]

theorem procEnable_noDetect (o : Oracle) (hno : noFail o) (n baud : Nat)
    (ihx : Bool) (s : S) :
    procEnable o ⟨false, n, baud, ihx⟩ s =
      .ok { s with
            events := s.events ++ [.log .info .enableMemAccess, .reset 0,
              .transmit [172, 83, 0, 0], .reset 0],
            tx := s.tx + 1 } := by
  have htx : o.transmitFails s.tx = false := hno s.tx
  simp [procEnable, transmitOp, emits, emit, htx, List.append_assoc]

/-- Successful dump path with detection disabled: the full event trace. -/
theorem process_noDetect_ok (o : Oracle) (hno : noFail o) (n baud : Nat)
    (ihx : Bool) (det : Option Nat) (h0 : n ≠ 0) (hle : n ≤ 131072) :
    process o ⟨false, n, baud, ihx⟩ det =
      .ok { events := procHead baud ++ Event.log .info .startDump ::
              Event.reset 0 :: traceFrom o 0 (List.range (n / 2))
              ++ dumpTail ihx n,
            image := byteSeq o 0 (2 * (n / 2)),
            tx := 1 + 2 * (n / 2), rx := 2 * (n / 2) } := by
  have hres : resolvedSize ⟨false, n, baud, ihx⟩ det = n := by
    simp [resolvedSize]
  unfold process
  rw [hres, procStart_noDetect n baud ihx det hle,
    procEnable_noDetect o hno n baud ihx]
  simp only []
  rw [if_pos (by simp [h0])]
  rw [dumpRun_ok o hno ihx n _ (by omega)]
  simp [emit, procHead, List.append_assoc]

/-- Detection disabled and `flash_size = 0`: hardware is touched (GPIO, SPI
configure, the enable transmit) and only then is "Invalid flash size"
logged; no dump is attempted. -/
theorem process_noDetect_zero (o : Oracle) (hno : noFail o) (baud : Nat)
    (ihx : Bool) (det : Option Nat) :
    process o ⟨false, 0, baud, ihx⟩ det =
      .ok { events := procHead baud ++ [.log .error .invalidSize],
            tx := 1 } := by
  have hres : resolvedSize ⟨false, 0, baud, ihx⟩ det = 0 := by
    simp [resolvedSize]
  unfold process
  rw [hres, procStart_noDetect 0 baud ihx det (by omega),
    procEnable_noDetect o hno 0 baud ihx]
  simp only []
  rw [if_neg (by simp), if_pos (by simp)]
  simp [emit, procHead, List.append_assoc]

/-- Detection enabled but the collaborator returned no device, stale size
nonzero: the dump runs on the stale size, with no error logged. -/
theorem process_detectNone_ok (o : Oracle) (hno : noFail o) (n baud : Nat)
    (ihx : Bool) (h0 : n ≠ 0) (hle : n ≤ 131072) :
    process o ⟨true, n, baud, ihx⟩ none =
      .ok { events := [.detect, .gpioDir, .reset 1, .spiConfigure baud,
              .log .info .startDump, .reset 0]
              ++ traceFrom o 0 (List.range (n / 2)) ++ dumpTail ihx n,
            image := byteSeq o 0 (2 * (n / 2)),
            tx := 2 * (n / 2), rx := 2 * (n / 2) } := by
  have hres : resolvedSize ⟨true, n, baud, ihx⟩ none = n := by
    simp [resolvedSize]
  unfold process
  rw [hres, procStart_detectNone n baud ihx hle]
  rw [show procEnable o ⟨true, n, baud, ihx⟩
        { events := [.detect, .gpioDir, .reset 1, .spiConfigure baud] } =
      .ok { events := [.detect, .gpioDir, .reset 1, .spiConfigure baud] }
      from rfl]
  simp only []
  rw [if_pos (by simp [h0])]
  rw [dumpRun_ok o hno ihx n _ (by omega)]
  simp [emit, List.append_assoc]

/-- Detection enabled, no device, stale size zero: `process` does nothing
after configuring the SPI — no dump, and also no error report at all. -/
theorem process_detectNone_zero (o : Oracle) (baud : Nat) (ihx : Bool) :
    process o ⟨true, 0, baud, ihx⟩ none =
      .ok { events := [.detect, .gpioDir, .reset 1, .spiConfigure baud] } := by
  have hres : resolvedSize ⟨true, 0, baud, ihx⟩ none = 0 := by
    simp [resolvedSize]
  unfold process
  rw [hres, procStart_detectNone 0 baud ihx (by omega)]
  rw [show procEnable o ⟨true, 0, baud, ihx⟩
        { events := [.detect, .gpioDir, .reset 1, .spiConfigure baud] } =
      .ok { events := [.detect, .gpioDir, .reset 1, .spiConfigure baud] }
      from rfl]
  simp only []
  rw [if_neg (by simp), if_neg (by simp)]

/-- Detection disabled, size above the maximum: the check only logs. -/
theorem procStart_noDetect_max (n baud : Nat) (ihx : Bool) (det : Option Nat)
    (h : 131072 < n) :
    procStart ⟨false, n, baud, ihx⟩ det =
      { events := [.log .error .invalidMaxSize, .gpioDir, .reset 1,
                   .spiConfigure baud] } := by
  have haux : 131072 < resolvedSize ⟨false, n, baud, ihx⟩ det := by
    simpa [resolvedSize] using h
  simp [procStart, emit, emits, haux]

/-- Detection disabled, size above the maximum: `process` still attempts the
dump, right after the "Invalid flash size" error log. -/
theorem process_noDetect_max (o : Oracle) (hno : noFail o) (n baud : Nat)
    (ihx : Bool) (det : Option Nat) (h : 131072 < n) :
    process o ⟨false, n, baud, ihx⟩ det =
      dumpRun o ihx n
        { events := [.log .error .invalidMaxSize, .gpioDir, .reset 1,
            .spiConfigure baud, .log .info .enableMemAccess, .reset 0,
            .transmit [172, 83, 0, 0], .reset 0, .log .info .startDump],
          tx := 1 } := by
  have hres : resolvedSize ⟨false, n, baud, ihx⟩ det = n := by
    simp [resolvedSize]
  unfold process
  rw [hres, procStart_noDetect_max n baud ihx det h,
    procEnable_noDetect o hno n baud ihx]
  simp only []
  rw [if_pos (by simp; omega)]
  simp [emit, List.append_assoc]

/-! ### Counting events across every branch of `process` and `run` -/

theorem procStart_countP (opts : Options) (det : Option Nat) (p : Event → Bool)
    (hg : p .gpioDir = false) (hrv : ∀ v, p (.reset v) = false)
    (hconf : ∀ b, p (.spiConfigure b) = false) (hdet : p .detect = false)
    (hlog : ∀ lv m, p (.log lv m) = false) :
    (procStart opts det).events.countP p = 0 := by
  unfold procStart
  by_cases h1 : opts.detectTarget = true <;>
    by_cases h2 : 131072 < resolvedSize opts det <;>
      simp [h1, h2, emit, emits, List.countP_append, List.countP_cons,
        hg, hrv, hconf, hdet, hlog]

theorem procEnable_countP (o : Oracle) (opts : Options) (s : S)
    (p : Event → Bool)
    (hrv : ∀ v, p (.reset v) = false)
    (hlog : ∀ lv m, p (.log lv m) = false)
    (hen : opts.detectTarget = false → p (.transmit [172, 83, 0, 0]) = false) :
    (eventsE (procEnable o opts s)).countP p = s.events.countP p := by
  unfold procEnable
  by_cases h1 : opts.detectTarget = true
  · simp [h1, eventsE]
  · have hen2 := hen (by simpa using h1)
    unfold transmitOp
    by_cases hf : o.transmitFails s.tx = true <;>
      simp [h1, hf, eventsE, emit, emits, List.countP_append,
        List.countP_cons, hrv, hlog, hen2]

/-- If the predicate is false on every event `process` can emit (with the
programming-enable transmit only required when detection is disabled), the
whole `run` trace contains no matching event, on every branch, error paths
included. -/
theorem runMod_countP (o : Oracle) (opts : Options) (det : Option Nat)
    (p : Event → Bool)
    (hg : p .gpioDir = false) (hrv : ∀ v, p (.reset v) = false)
    (hconf : ∀ b, p (.spiConfigure b) = false) (hdet : p .detect = false)
    (hlog : ∀ lv m, p (.log lv m) = false)
    (hsave : ∀ b, p (.save b) = false)
    (h40 : ∀ bs, p (.transmit (40 :: bs)) = false)
    (h32 : ∀ bs, p (.transmit (32 :: bs)) = false)
    (hrecv : ∀ n bs, p (.receive n bs) = false)
    (hen : opts.detectTarget = false → p (.transmit [172, 83, 0, 0]) = false) :
    (runMod o opts det).countP p = 0 := by
  have hstart := procStart_countP opts det p hg hrv hconf hdet hlog
  have henb := procEnable_countP o opts (procStart opts det) p hrv hlog hen
  have hproc : (eventsE (process o opts det)).countP p = 0 := by
    unfold process
    cases hE : procEnable o opts (procStart opts det) with
    | error s1 =>
      rw [hE] at henb
      simp only [eventsE] at henb ⊢
      omega
    | ok s2 =>
      rw [hE] at henb
      simp only [eventsE] at henb
      have hemit : ∀ (e : Event), (emit s2 e).events = s2.events ++ [e] :=
        fun e => rfl
      simp only []
      by_cases hc1 : (opts.detectTarget ∧ resolvedSize opts det ≠ 0) ∨
          (¬ opts.detectTarget ∧ resolvedSize opts det ≠ 0)
      · rw [if_pos hc1]
        have hd := dumpRun_countP o p h40 h32 hrecv hrv
          opts.intelhex (resolvedSize opts det) (hlog _ _) (hsave _) (hlog _ _)
          (emit s2 (.log .info .startDump))
        rw [hd, hemit, List.countP_append]
        have h1 : List.countP p [Event.log .info .startDump] = 0 := by
          simp [List.countP_cons, hlog]
        omega
      · rw [if_neg hc1]
        by_cases hc2 : (¬ opts.detectTarget ∧ resolvedSize opts det = 0)
        · rw [if_pos hc2]
          simp only [eventsE]
          rw [hemit, List.countP_append]
          have h1 : List.countP p [Event.log .error .invalidSize] = 0 := by
            simp [List.countP_cons, hlog]
          omega
        · rw [if_neg hc2]
          simp only [eventsE]
          omega
  unfold runMod
  cases hP : process o opts det with
  | error s1 =>
    rw [hP] at hproc
    simp only [eventsE] at hproc
    simp [List.countP_append, List.countP_cons, hlog, hproc]
  | ok s =>
    rw [hP] at hproc
    simpa [eventsE] using hproc

/-! ### Round-trip of the Intel-HEX model -/

theorem hexDigitVal_hexDigit : ∀ d < 16, hexDigitVal (hexDigit d) = some d := by
  decide

theorem parseByteChars_byteHex (b : Nat) (hb : b < 256) (rest : List Char) :
    parseByteChars (byteHexChars b ++ rest) = some (b, rest) := by
  have h1 : hexDigitVal (hexDigit (b / 16 % 16)) = some (b / 16 % 16) :=
    hexDigitVal_hexDigit _ (Nat.mod_lt _ (by norm_num))
  have h2 : hexDigitVal (hexDigit (b % 16)) = some (b % 16) :=
    hexDigitVal_hexDigit _ (Nat.mod_lt _ (by norm_num))
  have h3 : 16 * (b / 16 % 16) + b % 16 = b := by omega
  simp [byteHexChars, parseByteChars, h1, h2, h3]

theorem parseBytesChars_flatMap (d : List Nat) (hb : ∀ b ∈ d, b < 256) :
    ∀ rest : List Char,
      parseBytesChars d.length (d.flatMap byteHexChars ++ rest) =
        some (d, rest) := by
  induction d with
  | nil => intro rest; simp [parseBytesChars]
  | cons b t ih =>
    intro rest
    have hbb : b < 256 := hb b (by simp)
    have hbt : ∀ x ∈ t, x < 256 := fun x hx => hb x (by simp [hx])
    have h1 : (b :: t).flatMap byteHexChars ++ rest =
        byteHexChars b ++ (t.flatMap byteHexChars ++ rest) := by
      simp [List.append_assoc]
    rw [List.length_cons, h1]
    simp only [parseBytesChars, parseByteChars_byteHex b hbb, ih hbt rest]

theorem checksum_cancel (s : Nat) : (s + checksum s) % 256 = 0 := by
  unfold checksum
  omega

theorem parseLine_eofLine : parseLine eofLine = some HexRecord.eof := by
  decide

theorem parseLine_recordLine (addr : Nat) (d : List Nat)
    (hlen : d.length ≤ 32) (hb : ∀ b ∈ d, b < 256) :
    parseLine (recordLine addr d) = some (.data (addr % 65536) d) := by
  have hcnt : d.length < 256 := by omega
  have hhi : addr / 256 % 256 < 256 := Nat.mod_lt _ (by norm_num)
  have hlo : addr % 256 < 256 := Nat.mod_lt _ (by norm_num)
  have hck : checksum (d.length + addr / 256 % 256 + addr % 256 + 0 + d.sum)
      < 256 := by
    unfold checksum
    omega
  have hsum := checksum_cancel
    (d.length + addr / 256 % 256 + addr % 256 + 0 + d.sum)
  have haddr : 256 * (addr / 256 % 256) + addr % 256 = addr % 65536 := by
    omega
  have hrec : recordLine addr d =
      ':' :: (byteHexChars d.length ++ (byteHexChars (addr / 256 % 256) ++
        (byteHexChars (addr % 256) ++ (byteHexChars 0 ++
        (d.flatMap byteHexChars ++ (byteHexChars (checksum (d.length +
          addr / 256 % 256 + addr % 256 + 0 + d.sum)) ++ [])))))) := by
    simp [recordLine, List.append_assoc]
  have p1 := parseByteChars_byteHex d.length hcnt
  have p2 := parseByteChars_byteHex _ hhi
  have p3 := parseByteChars_byteHex _ hlo
  have p4 := parseByteChars_byteHex 0 (by norm_num)
  have p5 := parseBytesChars_flatMap d hb
  have p6 := parseByteChars_byteHex _ hck
  rw [hrec]
  simp only [parseLine, if_pos rfl, p1, p2, p3, p4, p5, p6]
  simp [checksum_cancel, haddr]

theorem decodeLines_encodeRecords :
    ∀ (fuel : Nat) (d : List Nat) (ofs : Nat), d.length ≤ fuel →
      (∀ b ∈ d, b < 256) →
      decodeLines ofs (encodeRecords ofs d ++ [eofLine]) = some d := by
  intro fuel
  induction fuel with
  | zero =>
    intro d ofs hlen hb
    have hd : d = [] := by
      cases d with
      | nil => rfl
      | cons x t => simp at hlen
    subst hd
    rw [encodeRecords]
    simp [decodeLines, parseLine_eofLine]
  | succ n ih =>
    intro d ofs hlen hb
    by_cases hd : d = []
    · subst hd
      rw [encodeRecords]
      simp [decodeLines, parseLine_eofLine]
    · rw [encodeRecords, dif_neg hd]
      have htake : (d.take 32).length ≤ 32 := by
        simp [List.length_take]
      have htb : ∀ b ∈ d.take 32, b < 256 := fun b hx =>
        hb b (List.mem_of_mem_take hx)
      have hpl := parseLine_recordLine ofs (d.take 32) htake htb
      simp only [List.cons_append, decodeLines, hpl, if_pos rfl]
      by_cases hlen32 : d.length ≤ 32
      · have hdrop : d.drop 32 = [] := by
          apply List.drop_eq_nil_of_le
          omega
        have htk : d.take 32 = d := List.take_of_length_le hlen32
        rw [hdrop, encodeRecords]
        simp [decodeLines, parseLine_eofLine, htk]
      · have hdb : ∀ b ∈ d.drop 32, b < 256 := fun b hx =>
          hb b (List.mem_of_mem_drop hx)
        have hdl : (d.drop 32).length ≤ n := by
          simp [List.length_drop]
          omega
        have h32 : (d.take 32).length = 32 := by
          simp [List.length_take]
          omega
        have hrec := ih (d.drop 32) (ofs + 32) hdl hdb
        rw [h32]
        simp [hrec, List.take_append_drop]

/-! ### Small trace helpers for the claim theorems -/

theorem cmdResponses_cons_reset (v : Nat) (rest : List Event) :
    cmdResponses (Event.reset v :: rest) = cmdResponses rest := rfl

theorem cmdResponses_dumpTail (ihx : Bool) (n : Nat) :
    cmdResponses (dumpTail ihx n) = [] := rfl

theorem transmitsOf_cons_reset (v : Nat) (rest : List Event) :
    transmitsOf (Event.reset v :: rest) = transmitsOf rest := by
  simp [transmitsOf]

theorem transmitsOf_dumpTail (ihx : Bool) (n : Nat) :
    transmitsOf (dumpTail ihx n) = [] := by
  simp [transmitsOf, dumpTail]

/-! ## Claim C1 -/

/-- Claim C1, counterexample.  The claim says the byte at position `2*addr`
is the response to the low-byte-read (opcode 0x20 = 32) and that the low-byte
read is issued before the high-byte read.  Dumping 1 word with an oracle that
answers 170 to the first receive and 187 to the second shows the opposite:
the first transmitted command is the high-byte read `[40, 0, 0]`, its
response 170 lands at position 0, and the low-byte response is 187, not the
byte at position 0. -/
theorem C1_counterexample :
    cmdResponses (eventsE (dumpTop o1 2)) =
      [([40, 0, 0], 170), ([32, 0, 0], 187)] ∧
    (imageE (dumpTop o1 2)).get? 0 ≠ some 187 ∧
    (transmitsOf (eventsE (dumpTop o1 2))).head? ≠
      some (32 :: packBytesLE 0) := by
  rw [dumpTop_ok o1 noFail_o1 2 (by norm_num)]
  decide

/-- Claim C1, amended.  For every word address `addr` read during a dump
(size within the 16-bit address range, transport succeeding), the byte at
position `2*addr` of the image is the byte received in response to the
HIGH-byte-read command (opcode 0x28) for `addr`, the byte at `2*addr+1` is
the response to the LOW-byte-read command (opcode 0x20), and the high-byte
read is issued before the low-byte read (the pairing of every command with
its response is `pairTrace`, which lists, per address, the 0x28 command with
the even-indexed response before the 0x20 command with the odd-indexed
response). -/
theorem C1_amended (o : Oracle) (n addr : Nat) (hno : noFail o)
    (hn : n ≤ 131073) (haddr : addr < n / 2) :
    (imageE (dumpTop o n)).get? (2 * addr) = some (o.resp (2 * addr) % 256) ∧
    (imageE (dumpTop o n)).get? (2 * addr + 1) =
      some (o.resp (2 * addr + 1) % 256) ∧
    cmdResponses (eventsE (dumpTop o n)) =
      pairTrace o 0 (List.range (n / 2)) := by
  rw [dumpTop_ok o hno n hn]
  simp only [imageE, eventsE]
  refine ⟨?_, ?_, ?_⟩
  · have h := byteSeq_get o (2 * (n / 2)) 0 (2 * addr) (by omega)
    simpa using h
  · have h := byteSeq_get o (2 * (n / 2)) 0 (2 * addr + 1) (by omega)
    simpa using h
  · rw [List.cons_append, cmdResponses_cons_reset,
      cmdResponses_traceFrom o (List.range (n / 2)) 0 (dumpTail true n),
      cmdResponses_dumpTail]
    simp

/-- Witness for C1 amended at `o1`, `flash_size = 2`, `addr = 0`. -/
theorem C1_amended_witness :
    noFail o1 ∧ (imageE (dumpTop o1 2)).get? 0 = some (o1.resp 0 % 256) :=
  ⟨noFail_o1, by
    have h := (C1_amended o1 2 0 noFail_o1 (by norm_num) (by norm_num)).1
    simpa using h⟩

/-! ## Claim C2 -/

/-- Claim C2, counterexample.  The claim says every read command carries the
16-bit address big-endian (most significant byte first).  At word address 1
the transmitted command is `[40, 1, 0]` — least significant byte first — and
differs from the big-endian encoding `[40, 0, 1]` the spec prescribes. -/
theorem C2_counterexample :
    (transmitsOf (eventsE (dumpTop o0 4))).get? 2 =
      some (40 :: packBytesLE 1) ∧
    40 :: packBytesLE 1 ≠ 40 :: packBE16spec 1 := by
  rw [dumpTop_ok o0 noFail_o0 4 (by norm_num)]
  decide

/-- Claim C2, amended.  Every command the read loop transmits is the one-byte
opcode (0x28 = 40 or 0x20 = 32) followed by the 16-bit word address encoded
LITTLE-endian (least significant byte first, `struct.pack("<H", addr)`). -/
theorem C2_amended (o : Oracle) (n : Nat) (hno : noFail o)
    (hn : n ≤ 131073) :
    transmitsOf (eventsE (dumpTop o n)) =
      (List.range (n / 2)).flatMap fun a =>
        [40 :: packBytesLE a, 32 :: packBytesLE a] := by
  rw [dumpTop_ok o hno n hn]
  simp only [eventsE]
  rw [List.cons_append, transmitsOf_cons_reset, transmitsOf_append,
    transmitsOf_traceFrom, transmitsOf_dumpTail]
  simp

/-- Witness for C2 amended at `o0`, `flash_size = 4`. -/
theorem C2_amended_witness :
    transmitsOf (eventsE (dumpTop o0 4)) =
      [[40, 0, 0], [32, 0, 0], [40, 1, 0], [32, 1, 0]] := by
  rw [C2_amended o0 4 noFail_o0 (by norm_num)]
  rfl

/-! ## Claim C3 -/

/-- Claim C3: decoding the Intel-HEX file produced by the output encoder
yields exactly the original byte sequence, for every image (any length,
including 0 and the record-boundary lengths 1, 31, 32, 33).  The encoder is
modelled from the spec (the `intelhex` library is external to the
repository). -/
theorem C3_hex_roundtrip (d : List Nat) (hb : allBytes d = true) :
    decodeHex (encodeHex d) = some d := by
  have hb2 : ∀ b ∈ d, b < 256 := by
    simpa [allBytes] using hb
  unfold decodeHex encodeHex
  exact decodeLines_encodeRecords d.length d 0 le_rfl hb2

/-- Witness for C3 at the 33-byte image `0, 1, …, 32` (crossing the 32-byte
record boundary). -/
theorem C3_hex_roundtrip_witness :
    allBytes (List.range 33) = true ∧
    decodeHex (encodeHex (List.range 33)) = some (List.range 33) :=
  ⟨by decide, C3_hex_roundtrip (List.range 33) (by decide)⟩

/-! ## Claim C4 -/

/-- Claim C4, counterexample.  The claim says the reset line is driven back
high exactly once on every termination path, including a transport error
mid-read.  With an oracle whose second transmit call raises (failing the
first low-byte read of a 2-word dump), the dump terminates by exception with
no reset-high write at all: the last value written to the reset line is 0. -/
theorem C4_counterexample :
    okE (dumpTop oFail1 4) = false ∧
    resetHighCount (eventsE (dumpTop oFail1 4)) = 0 ∧
    lastReset (eventsE (dumpTop oFail1 4)) = some 0 := by
  decide

/-- Claim C4, amended.  On normal completion of the dump phase the reset
line is driven to the inactive (high) level exactly once; but on a
termination by transport error the reset line is never driven high — there
is no `try/finally`, so control returns with reset still asserted low. -/
theorem C4_amended (o : Oracle) (n : Nat) :
    (okE (dumpTop o n) = true →
      resetHighCount (eventsE (dumpTop o n)) = 1) ∧
    (okE (dumpTop o n) = false →
      resetHighCount (eventsE (dumpTop o n)) = 0) := by
  have hiter := dumpIter_countP o isResetHigh (fun bs => rfl) (fun bs => rfl)
    (fun k bs => rfl) (List.range (n / 2)) (emit {} (.reset 0))
  unfold dumpTop dumpRun
  cases hD : dumpIter o (List.range (n / 2)) (emit ({} : S) (.reset 0)) with
  | error s1 =>
    rw [hD] at hiter
    simp only [eventsE] at hiter
    refine ⟨fun h => by simp [okE] at h, fun _ => ?_⟩
    simp only [eventsE, resetHighCount]
    rw [hiter]
    decide
  | ok s1 =>
    rw [hD] at hiter
    simp only [eventsE] at hiter
    refine ⟨fun _ => ?_, fun h => by simp [okE] at h⟩
    simp only [eventsE, emits, resetHighCount]
    rw [List.countP_append, hiter]
    have h1 : List.countP isResetHigh
        [Event.reset 1, Event.log .success (.dumpSuccess n),
         Event.save true, Event.log .result .dumpSaved] = 1 := by
      simp [List.countP_cons, isResetHigh]
    rw [h1]
    decide

/-- Witness for C4 amended: the success half at `o0`, `flash_size = 4`. -/
theorem C4_amended_witness :
    okE (dumpTop o0 4) = true ∧
    resetHighCount (eventsE (dumpTop o0 4)) = 1 :=
  ⟨by rw [dumpTop_ok o0 noFail_o0 4 (by norm_num)]; rfl,
   (C4_amended o0 4).1
     (by rw [dumpTop_ok o0 noFail_o0 4 (by norm_num)]; rfl)⟩

/-! ## Claim C5 -/

theorem countP_procHead (p : Event → Bool) (baud : Nat)
    (hg : p .gpioDir = false) (hrv : ∀ v, p (.reset v) = false)
    (hconf : ∀ b, p (.spiConfigure b) = false)
    (hlog1 : p (.log .info .enableMemAccess) = false)
    (hen : p (.transmit [172, 83, 0, 0]) = false) :
    (procHead baud).countP p = 0 := by
  simp [procHead, List.countP_cons, hg, hrv, hconf, hlog1, hen]

theorem countP_dumpTail (p : Event → Bool) (ihx : Bool) (n : Nat)
    (hrv : ∀ v, p (.reset v) = false)
    (hsucc : p (.log .success (.dumpSuccess n)) = false)
    (hsave : p (.save ihx) = false)
    (hres : p (.log .result .dumpSaved) = false) :
    (dumpTail ihx n).countP p = 0 := by
  simp [dumpTail, List.countP_cons, hrv, hsucc, hsave, hres]

/-- Claim C5, counterexample.  `flash_size = 131074` spans two 64K-word
pages, so the claim demands at least one extended-address-load command
(opcode 0x4D = 77); the dump transmits none at all — and in fact aborts with
a `struct.error` when the word address reaches 65536, so it does not even
complete. -/
theorem C5_counterexample :
    extLoadCount (eventsE (dumpTop o0 131074)) = 0 ∧
    okE (dumpTop o0 131074) = false := by
  constructor
  · have h := dumpRun_countP o0 isExtLoad (fun bs => rfl) (fun bs => rfl)
      (fun k bs => rfl) (fun v => rfl) true 131074 rfl rfl rfl ({} : S)
    unfold extLoadCount dumpTop
    rw [h]
    rfl
  · unfold dumpTop
    rw [okE_dumpRun]
    exact dumpIter_err o0 (List.range (131074 / 2))
      (emit ({} : S) (.reset 0))
      ⟨65536, by rw [List.mem_range]; norm_num, by omega⟩

/-- Claim C5, amended.  No extended-address-load command is ever transmitted,
for any flash size, detection setting or transport behaviour: the module does
not implement extended addressing (word addresses beyond 65535 cannot even be
encoded — the dump aborts there, see the counterexample). -/
theorem C5_amended (o : Oracle) (opts : Options) (det : Option Nat) :
    extLoadCount (runMod o opts det) = 0 :=
  runMod_countP o opts det isExtLoad rfl (fun _ => rfl) (fun _ => rfl) rfl
    (fun _ _ => rfl) (fun _ => rfl) (fun _ => rfl) (fun _ => rfl)
    (fun _ _ => rfl) (fun _ => rfl)

/-! ## Claim C6 -/

/-- Claim C6, counterexample.  The claim says every invalid `flash_size`
(zero, odd, or above the maximum) is rejected as an error before any
hardware interaction, with the dump not attempted.  For the odd size 3 (with
detection disabled) no error is reported at all and the dump IS attempted;
for size 0 hardware events (GPIO, reset writes, SPI configure, the enable
transmit) occur strictly before the error-level log. -/
theorem C6_counterexample :
    errLogCount (runMod o0 (mkOpts false 3 9 true) none) = 0 ∧
    startLogCount (runMod o0 (mkOpts false 3 9 true) none) = 1 ∧
    hwBeforeErr (runMod o0 (mkOpts false 0 9 true) none) = true := by
  have h3 : runMod o0 (mkOpts false 3 9 true) none =
      procHead 9 ++ Event.log .info .startDump ::
        Event.reset 0 :: traceFrom o0 0 (List.range (3 / 2))
        ++ dumpTail true 3 := by
    unfold runMod mkOpts
    rw [process_noDetect_ok o0 noFail_o0 3 9 true none (by norm_num)
      (by norm_num)]
  have h0 : runMod o0 (mkOpts false 0 9 true) none =
      procHead 9 ++ [.log .error .invalidSize] := by
    unfold runMod mkOpts
    rw [process_noDetect_zero o0 noFail_o0 9 true none]
  rw [h3, h0]
  decide

/-- Claim C6, amended.  Invalid sizes are not rejected before hardware
interaction.  With detection disabled and the transport succeeding:
(1) for odd `flash_size ≤ 131071` the dump is attempted and no error is
reported; (2) for `flash_size = 0` the full trace is the hardware prologue
(GPIO, reset writes, SPI configure, enable transmit) followed by the
"Invalid flash size" error — hardware interaction strictly precedes the
report, and no dump is attempted; (3) for `flash_size > 131072` an error is
reported but the dump is still attempted. -/
theorem C6_amended (o : Oracle) (hno : noFail o) (baud : Nat) (ihx : Bool)
    (det : Option Nat) :
    (∀ n, n % 2 = 1 → n ≤ 131071 →
      errLogCount (runMod o ⟨false, n, baud, ihx⟩ det) = 0 ∧
      startLogCount (runMod o ⟨false, n, baud, ihx⟩ det) = 1) ∧
    (runMod o ⟨false, 0, baud, ihx⟩ det =
      procHead baud ++ [.log .error .invalidSize] ∧
      hwBeforeErr (runMod o ⟨false, 0, baud, ihx⟩ det) = true) ∧
    (∀ n, 131072 < n →
      startLogCount (runMod o ⟨false, n, baud, ihx⟩ det) = 1 ∧
      1 ≤ errLogCount (runMod o ⟨false, n, baud, ihx⟩ det)) := by
  have hzero : runMod o ⟨false, 0, baud, ihx⟩ det =
      procHead baud ++ [.log .error .invalidSize] := by
    unfold runMod
    rw [process_noDetect_zero o hno baud ihx det]
  refine ⟨?_, ⟨hzero, ?_⟩, ?_⟩
  · intro n hodd hle
    have h0 : n ≠ 0 := by omega
    have hP := process_noDetect_ok o hno n baud ihx det h0 (by omega)
    unfold runMod
    rw [hP]
    have htr1 := countP_traceFrom o isErrLogEvt (fun bs => rfl)
      (fun bs => rfl) (fun k bs => rfl) (List.range (n / 2)) 0
    have htr2 := countP_traceFrom o isStartLog (fun bs => rfl)
      (fun bs => rfl) (fun k bs => rfl) (List.range (n / 2)) 0
    have hph1 := countP_procHead isErrLogEvt baud rfl (fun v => rfl)
      (fun b => rfl) rfl rfl
    have hph2 := countP_procHead isStartLog baud rfl (fun v => rfl)
      (fun b => rfl) rfl rfl
    have hdt1 := countP_dumpTail isErrLogEvt ihx n (fun v => rfl) rfl rfl rfl
    have hdt2 := countP_dumpTail isStartLog ihx n (fun v => rfl) rfl rfl rfl
    constructor
    · simp only [errLogCount, List.countP_append, List.countP_cons,
        hph1, htr1, hdt1]
      rfl
    · simp only [startLogCount, List.countP_append, List.countP_cons,
        hph2, htr2, hdt2]
      rfl
  · rw [hzero]
    simp [hwBeforeErr, procHead, isErrLogEvt, isHw, isErrLog,
      List.takeWhile_cons, List.countP_cons]
  · intro n hmax
    have hP := process_noDetect_max o hno n baud ihx det hmax
    unfold runMod
    rw [hP]
    have hstart := dumpRun_countP o isStartLog (fun bs => rfl) (fun bs => rfl)
      (fun k bs => rfl) (fun v => rfl) ihx n rfl rfl rfl
      { events := [.log .error .invalidMaxSize, .gpioDir, .reset 1,
          .spiConfigure baud, .log .info .enableMemAccess, .reset 0,
          .transmit [172, 83, 0, 0], .reset 0, .log .info .startDump],
        tx := 1 }
    have herr := dumpRun_countP o isErrLogEvt (fun bs => rfl) (fun bs => rfl)
      (fun k bs => rfl) (fun v => rfl) ihx n rfl rfl rfl
      { events := [.log .error .invalidMaxSize, .gpioDir, .reset 1,
          .spiConfigure baud, .log .info .enableMemAccess, .reset 0,
          .transmit [172, 83, 0, 0], .reset 0, .log .info .startDump],
        tx := 1 }
    cases hD : dumpRun o ihx n
        { events := [.log .error .invalidMaxSize, .gpioDir, .reset 1,
            .spiConfigure baud, .log .info .enableMemAccess, .reset 0,
            .transmit [172, 83, 0, 0], .reset 0, .log .info .startDump],
          tx := 1 } with
    | error s1 =>
      rw [hD] at hstart herr
      simp only [eventsE] at hstart herr
      constructor
      · simp only [startLogCount, List.countP_append, List.countP_cons,
          hstart]
        rfl
      · simp only [errLogCount, List.countP_append, List.countP_cons, herr]
        simp [List.countP_cons, isErrLogEvt]
    | ok s1 =>
      rw [hD] at hstart herr
      simp only [eventsE] at hstart herr
      constructor
      · simp only [startLogCount, hstart]
        rfl
      · simp only [errLogCount, herr]
        simp [List.countP_cons, isErrLogEvt]

/-- Witness for C6 amended: the odd-size part at `flash_size = 3`. -/
theorem C6_amended_witness :
    errLogCount (runMod o0 (mkOpts false 3 9 true) none) = 0 ∧
    startLogCount (runMod o0 (mkOpts false 3 9 true) none) = 1 :=
  (C6_amended o0 noFail_o0 9 true none).1 3 rfl (by norm_num)

/-! ## Claim C7 -/

/-- Claim C7, counterexample.  With detection enabled, the collaborator
returning no result, and a stale `flash_size` option of 6, the claim demands
a reported DetectionError, no dump, and no SPI transmit at all; instead no
error is reported, the dump is attempted, and read commands are
transmitted. -/
theorem C7_counterexample :
    startLogCount (runMod o0 (mkOpts true 6 9 true) none) = 1 ∧
    errLogCount (runMod o0 (mkOpts true 6 9 true) none) = 0 ∧
    0 < (transmitsOf (runMod o0 (mkOpts true 6 9 true) none)).length := by
  have h6 : runMod o0 (mkOpts true 6 9 true) none =
      [.detect, .gpioDir, .reset 1, .spiConfigure 9,
        .log .info .startDump, .reset 0]
        ++ traceFrom o0 0 (List.range (6 / 2)) ++ dumpTail true 6 := by
    unfold runMod mkOpts
    rw [process_detectNone_ok o0 noFail_o0 6 9 true (by norm_num)
      (by norm_num)]
  rw [h6]
  decide

/-- Claim C7, amended.  When the detection collaborator returns no result,
no detection error exists to be reported (the source has no such log); the
stale `flash_size` option value is silently used instead.  Provided that
stale value is within the 131072-byte maximum and every transport operation
succeeds, no error of any kind is reported and the dump is attempted exactly
when the stale value is nonzero.  (A stale value above the maximum would
still trigger the max-size error log, and a transport failure the
caught-exception log — neither is a detection error.) -/
theorem C7_amended (o : Oracle) (hno : noFail o) (n baud : Nat) (ihx : Bool)
    (hle : n ≤ 131072) :
    errLogCount (runMod o ⟨true, n, baud, ihx⟩ none) = 0 ∧
    startLogCount (runMod o ⟨true, n, baud, ihx⟩ none) =
      (if n = 0 then 0 else 1) := by
  by_cases h0 : n = 0
  · subst h0
    unfold runMod
    rw [process_detectNone_zero o baud ihx]
    constructor
    · simp [errLogCount, List.countP_cons, isErrLogEvt]
    · simp [startLogCount, List.countP_cons, isStartLog]
  · unfold runMod
    rw [process_detectNone_ok o hno n baud ihx h0 hle]
    have htr1 := countP_traceFrom o isErrLogEvt (fun bs => rfl)
      (fun bs => rfl) (fun k bs => rfl) (List.range (n / 2)) 0
    have htr2 := countP_traceFrom o isStartLog (fun bs => rfl)
      (fun bs => rfl) (fun k bs => rfl) (List.range (n / 2)) 0
    have hdt1 := countP_dumpTail isErrLogEvt ihx n (fun v => rfl) rfl rfl rfl
    have hdt2 := countP_dumpTail isStartLog ihx n (fun v => rfl) rfl rfl rfl
    rw [if_neg h0]
    constructor
    · simp only [errLogCount, List.countP_append, List.countP_cons,
        htr1, hdt1]
      rfl
    · simp only [startLogCount, List.countP_append, List.countP_cons,
        htr2, hdt2]
      rfl

/-- Witness for C7 amended at stale size 6. -/
theorem C7_amended_witness :
    errLogCount (runMod o0 (mkOpts true 6 9 true) none) = 0 ∧
    startLogCount (runMod o0 (mkOpts true 6 9 true) none) = 1 := by
  have h := C7_amended o0 noFail_o0 6 9 true (by norm_num)
  simpa using h

/-! ## Claim C8 -/

theorem readAddrs_cons_reset (v : Nat) (rest : List Event) :
    readAddrs (Event.reset v :: rest) = readAddrs rest := by
  simp [readAddrs, transmitsOf]

/-- Claim C8, counterexample.  The claim quantifies over every even positive
`flash_size`; at `flash_size = 131074` (65537 words) the loop aborts with a
`struct.error` when the word address reaches 65536 (`packLE16` fails), so
the dump never finishes: no image of length 131074 is finalized and no file
is saved. -/
theorem C8_counterexample :
    okE (dumpTop o0 131074) = false ∧
    saveCount (eventsE (dumpTop o0 131074)) = 0 := by
  have hok : okE (dumpIter o0 (List.range (131074 / 2))
      (emit ({} : S) (.reset 0))) = false :=
    dumpIter_err o0 (List.range (131074 / 2)) (emit ({} : S) (.reset 0))
      ⟨65536, by rw [List.mem_range]; norm_num, by omega⟩
  constructor
  · unfold dumpTop
    rw [okE_dumpRun]
    exact hok
  · have h := dumpRun_countP_err o0 isSave (fun _ => rfl) (fun _ => rfl)
      (fun _ _ => rfl) (fun _ => rfl) true 131074 ({} : S) hok
    unfold saveCount dumpTop
    rw [h]
    rfl

/-- Claim C8, amended.  For every even `flash_size` with
`0 < flash_size ≤ 131072` and a transport with no failures, the loop
succeeds, visits the word addresses `0 … flash_size/2 - 1` in strictly
ascending order, each exactly once (the decoded addresses of the transmitted
high-byte-read commands are exactly `List.range (flash_size/2)` in order),
issues exactly `flash_size/2` low-byte and `flash_size/2` high-byte read
commands, and the finished image has length exactly `flash_size`. -/
theorem C8_amended (o : Oracle) (n : Nat) (hno : noFail o)
    (heven : n % 2 = 0) (hpos : 0 < n) (hle : n ≤ 131072) :
    okE (dumpTop o n) = true ∧
    (imageE (dumpTop o n)).length = n ∧
    readAddrs (eventsE (dumpTop o n)) = List.range (n / 2) ∧
    readLowCount (eventsE (dumpTop o n)) = n / 2 ∧
    readHighCount (eventsE (dumpTop o n)) = n / 2 := by
  rw [dumpTop_ok o hno n (by omega)]
  have hmem : ∀ a ∈ List.range (n / 2), a < 65536 := fun a ha => by
    have := List.mem_range.1 ha
    omega
  simp only [eventsE, imageE, okE, List.cons_append]
  refine ⟨trivial, ?_, ?_, ?_, ?_⟩
  · rw [byteSeq_length]
    omega
  · rw [readAddrs_cons_reset]
    unfold readAddrs
    rw [transmitsOf_append, transmitsOf_dumpTail, List.append_nil]
    have h := readAddrs_traceFrom o (List.range (n / 2)) 0 hmem
    unfold readAddrs at h
    exact h
  · unfold readLowCount
    rw [transmitsOf_cons_reset, transmitsOf_append, transmitsOf_dumpTail,
      List.append_nil]
    have h := readLowCount_traceFrom o (List.range (n / 2)) 0
    unfold readLowCount at h
    rw [h, List.length_range]
  · unfold readHighCount
    rw [transmitsOf_cons_reset, transmitsOf_append, transmitsOf_dumpTail,
      List.append_nil]
    have h := readHighCount_traceFrom o (List.range (n / 2)) 0
    unfold readHighCount at h
    rw [h, List.length_range]

/-- Witness for C8 amended at `flash_size = 4`: 2 words, image of 4 bytes. -/
theorem C8_amended_witness :
    okE (dumpTop o0 4) = true ∧
    (imageE (dumpTop o0 4)).length = 4 ∧
    readAddrs (eventsE (dumpTop o0 4)) = List.range 2 ∧
    readLowCount (eventsE (dumpTop o0 4)) = 2 ∧
    readHighCount (eventsE (dumpTop o0 4)) = 2 := by
  have h := C8_amended o0 4 noFail_o0 rfl (by norm_num) (by norm_num)
  simpa using h

/-! ## Claim C9 -/

/-- Claim C9, counterexample.  The claim says that on EVERY dump the core
transmits `AC 53 00 00` and then waits ≈500 ms before the first read.  With
target detection enabled the core transmits no enable command at all (it is
delegated to the external detection module); and with detection disabled the
enable command is transmitted but no delay of any kind ever occurs (the
source contains no sleep call). -/
theorem C9_counterexample :
    enableCount (runMod o0 (mkOpts true 4 9 true) (some 4)) = 0 ∧
    delayCount (runMod o0 (mkOpts false 4 9 true) none) = 0 :=
  ⟨runMod_countP o0 (mkOpts true 4 9 true) (some 4) isEnableCmd rfl
      (fun _ => rfl) (fun _ => rfl) rfl (fun _ _ => rfl) (fun _ => rfl)
      (fun _ => rfl) (fun _ => rfl) (fun _ _ => rfl)
      (fun h => Bool.noConfusion h),
   runMod_countP o0 (mkOpts false 4 9 true) none isDelay rfl (fun _ => rfl)
      (fun _ => rfl) rfl (fun _ _ => rfl) (fun _ => rfl) (fun _ => rfl)
      (fun _ => rfl) (fun _ _ => rfl) (fun _ => rfl)⟩

/-- Claim C9, amended.  Only when detection is disabled does the module
transmit `AC 53 00 00`; the full trace shows it is sent after driving reset
low and is followed by another write of 0 (not 1) to the reset line (see
`procHead`), with no settle delay before the first read; when detection is
enabled, no enable command is transmitted by the module at all. -/
theorem C9_amended (o : Oracle) (hno : noFail o) (baud : Nat) (ihx : Bool)
    (det : Option Nat) :
    (∀ n, n ≠ 0 → n ≤ 131072 →
      runMod o ⟨false, n, baud, ihx⟩ det =
        procHead baud ++ Event.log .info .startDump ::
          Event.reset 0 :: traceFrom o 0 (List.range (n / 2))
          ++ dumpTail ihx n) ∧
    (∀ (dt : Bool) (fs : Nat),
      delayCount (runMod o ⟨dt, fs, baud, ihx⟩ det) = 0) ∧
    (∀ fs : Nat, enableCount (runMod o ⟨true, fs, baud, ihx⟩ det) = 0) := by
  refine ⟨?_, ?_, ?_⟩
  · intro n h0 hle
    unfold runMod
    rw [process_noDetect_ok o hno n baud ihx det h0 hle]
  · intro dt fs
    exact runMod_countP o ⟨dt, fs, baud, ihx⟩ det isDelay rfl (fun _ => rfl)
      (fun _ => rfl) rfl (fun _ _ => rfl) (fun _ => rfl) (fun _ => rfl)
      (fun _ => rfl) (fun _ _ => rfl) (fun _ => rfl)
  · intro fs
    exact runMod_countP o ⟨true, fs, baud, ihx⟩ det isEnableCmd rfl
      (fun _ => rfl) (fun _ => rfl) rfl (fun _ _ => rfl) (fun _ => rfl)
      (fun _ => rfl) (fun _ => rfl) (fun _ _ => rfl)
      (fun h => Bool.noConfusion h)

/-- Witness for C9 amended: the detection-disabled trace at
`flash_size = 4`. -/
theorem C9_amended_witness :
    runMod o0 (mkOpts false 4 9 true) none =
      procHead 9 ++ Event.log .info .startDump ::
        Event.reset 0 :: traceFrom o0 0 (List.range 2) ++ dumpTail true 4 := by
  have h := (C9_amended o0 noFail_o0 9 true none).1 4 (by norm_num)
    (by norm_num)
  simpa [mkOpts] using h

/-! ## Claim C10 -/

/-- Claim C10, counterexample.  The claim quantifies over every odd
`flash_size > 0`; at `flash_size = 131075` the loop aborts with a
`struct.error` at word address 65536 (`packLE16` fails), so an error IS
raised, no truncated image of `flash_size - 1` bytes is finalized, and no
file is written. -/
theorem C10_counterexample :
    okE (dumpTop o0 131075) = false ∧
    saveCount (eventsE (dumpTop o0 131075)) = 0 := by
  have hok : okE (dumpIter o0 (List.range (131075 / 2))
      (emit ({} : S) (.reset 0))) = false :=
    dumpIter_err o0 (List.range (131075 / 2)) (emit ({} : S) (.reset 0))
      ⟨65536, by rw [List.mem_range]; norm_num, by omega⟩
  constructor
  · unfold dumpTop
    rw [okE_dumpRun]
    exact hok
  · have h := dumpRun_countP_err o0 isSave (fun _ => rfl) (fun _ => rfl)
      (fun _ _ => rfl) (fun _ => rfl) true 131075 ({} : S) hok
    unfold saveCount dumpTop
    rw [h]
    rfl

/-- Claim C10, amended.  For every odd `flash_size` with
`0 < flash_size ≤ 131071` (detection disabled, transport succeeding): no
evenness check rejects the request, no error is reported, the dump is
attempted, the loop reads `flash_size / 2` (rounded down) words, producing
an image of exactly `flash_size - 1` bytes, and the truncated image is
saved to the destination file. -/
theorem C10_amended (o : Oracle) (hno : noFail o) (n baud : Nat) (ihx : Bool)
    (det : Option Nat) (hodd : n % 2 = 1) (hle : n ≤ 131071) :
    errLogCount (runMod o ⟨false, n, baud, ihx⟩ det) = 0 ∧
    startLogCount (runMod o ⟨false, n, baud, ihx⟩ det) = 1 ∧
    saveCount (runMod o ⟨false, n, baud, ihx⟩ det) = 1 ∧
    (imageE (process o ⟨false, n, baud, ihx⟩ det)).length = n - 1 := by
  have h0 : n ≠ 0 := by omega
  have hP := process_noDetect_ok o hno n baud ihx det h0 (by omega)
  have htr1 := countP_traceFrom o isErrLogEvt (fun _ => rfl)
    (fun _ => rfl) (fun _ _ => rfl) (List.range (n / 2)) 0
  have htr2 := countP_traceFrom o isStartLog (fun _ => rfl)
    (fun _ => rfl) (fun _ _ => rfl) (List.range (n / 2)) 0
  have htr3 := countP_traceFrom o isSave (fun _ => rfl)
    (fun _ => rfl) (fun _ _ => rfl) (List.range (n / 2)) 0
  have hph1 := countP_procHead isErrLogEvt baud rfl (fun _ => rfl)
    (fun _ => rfl) rfl rfl
  have hph2 := countP_procHead isStartLog baud rfl (fun _ => rfl)
    (fun _ => rfl) rfl rfl
  have hph3 := countP_procHead isSave baud rfl (fun _ => rfl)
    (fun _ => rfl) rfl rfl
  have hdt1 := countP_dumpTail isErrLogEvt ihx n (fun _ => rfl) rfl rfl rfl
  have hdt2 := countP_dumpTail isStartLog ihx n (fun _ => rfl) rfl rfl rfl
  refine ⟨?_, ?_, ?_, ?_⟩
  · unfold runMod
    rw [hP]
    simp only [errLogCount, List.countP_append, List.countP_cons,
      hph1, htr1, hdt1]
    rfl
  · unfold runMod
    rw [hP]
    simp only [startLogCount, List.countP_append, List.countP_cons,
      hph2, htr2, hdt2]
    rfl
  · unfold runMod
    rw [hP]
    simp only [saveCount, List.countP_append, List.countP_cons,
      hph3, htr3]
    simp [dumpTail, List.countP_cons, isSave]
  · rw [hP]
    simp only [imageE]
    rw [byteSeq_length]
    omega

/-- Witness for C10 amended at `flash_size = 5`: image of 4 bytes, saved
with no error. -/
theorem C10_amended_witness :
    errLogCount (runMod o0 (mkOpts false 5 9 true) none) = 0 ∧
    startLogCount (runMod o0 (mkOpts false 5 9 true) none) = 1 ∧
    saveCount (runMod o0 (mkOpts false 5 9 true) none) = 1 ∧
    (imageE (process o0 (mkOpts false 5 9 true) none)).length = 4 := by
  have h := C10_amended o0 noFail_o0 5 9 true none rfl (by norm_num)
  simpa [mkOpts] using h

end AvrFlashDump
